import Mathlib

/-!
Verification development for the lidify distributed acquisition and
concurrency layer.

The coordination store (Redis) is external to the repository; it is modelled
here as a key-value map with per-entry absolute expiry times and a logical
clock, following the primitives listed in the specification (atomic
"set if absent with TTL", atomic script-based "compare token then delete",
get/delete).  The `DistributedLock` operations themselves are translated
directly from `src/backend/src/utils/distributedLock.ts`.
-/

namespace Lidify

/-- One persisted entry of the coordination store: a key bound to a string
value, expiring at the absolute instant `expiresAt` (entries are live while
`now < expiresAt`, matching Redis PX semantics). -/
structure KVEntry where
  key : String
  value : String
  expiresAt : Nat
deriving DecidableEq

/-- The coordination store: its entries together with the current logical
time `now` (milliseconds). -/
structure KV where
  entries : List KVEntry
  now : Nat
deriving DecidableEq

/-- Redis GET: the value bound to `k`, or `none` when the key is absent or
its TTL has lapsed (Redis treats an expired key as absent). -/
def KV.get (kv : KV) (k : String) : Option String :=
  match kv.entries.find? (fun e => e.key == k) with
  | some e => if kv.now < e.expiresAt then some e.value else none
  | none => none

/-- Redis DEL: remove every entry stored under `k`. -/
def KV.del (kv : KV) (k : String) : KV :=
  { kv with entries := kv.entries.filter (fun e => e.key != k) }

/-- Redis SET with NX and PX: bind `k` to `v` for `ttl` milliseconds only if
`k` is currently absent (a physically present but expired entry counts as
absent and is replaced).  Returns whether the set happened, i.e. whether the
command answered OK. -/
def KV.setNX (kv : KV) (k v : String) (ttl : Nat) : Bool × KV :=
  match kv.get k with
  | some _ => (false, kv)
  | none =>
      (true,
        { entries := ⟨k, v, kv.now + ttl⟩ :: kv.entries.filter (fun e => e.key != k),
          now := kv.now })

/-- Advance the store's logical clock by `dt` milliseconds. -/
def KV.tick (kv : KV) (dt : Nat) : KV :=
  { kv with now := kv.now + dt }

/-- A `DistributedLock` instance.  The constructor in the source generates
`lockValue` once, from `randomBytes(16).toString(hex)`; the randomness is
supplied as the field's value. -/
structure DistributedLock where
  lockValue : String
deriving DecidableEq

/-- The source prefixes every lock key with "lock:". -/
def lockKey (key : String) : String := "lock:" ++ key

/-- DistributedLock.acquire from the source: SET lockKey lockValue PX ttlMs
NX inside a try/catch that turns any store-level error into `false`.
`storeFails` injects such a transport failure.  Redis rejects a non-positive
PX expiry, so `ttlMs = 0` is a store-level error and also yields `false`. -/
def DistributedLock.acquire (L : DistributedLock) (key : String) (ttlMs : Nat)
    (storeFails : Bool) (kv : KV) : Bool × KV :=
  if storeFails || ttlMs == 0 then (false, kv)
  else kv.setNX (lockKey key) L.lockValue ttlMs

/-- DistributedLock.release from the source: the Lua script atomically
compares the key's current value with this instance's token and deletes the
key only on a match, answering 1 exactly when the delete ran; the try/catch
turns any store-level error into `false`. -/
def DistributedLock.release (L : DistributedLock) (key : String)
    (storeFails : Bool) (kv : KV) : Bool × KV :=
  if storeFails then (false, kv)
  else
    match kv.get (lockKey key) with
    | some v => if v = L.lockValue then (true, kv.del (lockKey key)) else (false, kv)
    | none => (false, kv)

/-- DistributedLock.withLock from the source: acquire; on failure throw
"Failed to acquire lock: key"; on success run the callback and release in a
finally block, propagating the callback's outcome.  The callback acts on the
store and either returns a value or throws. -/
def DistributedLock.withLock {α : Type} (L : DistributedLock) (key : String) (ttlMs : Nat)
    (callback : KV → Except String α × KV)
    (acquireFails releaseFails : Bool) (kv : KV) : Except String α × KV :=
  match L.acquire key ttlMs acquireFails kv with
  | (false, kv1) => (Except.error ("Failed to acquire lock: " ++ key), kv1)
  | (true, kv1) =>
      match callback kv1 with
      | (Except.ok a, kv2) =>
          let r := L.release key releaseFails kv2
          (Except.ok a, r.2)
      | (Except.error e, kv2) =>
          let r := L.release key releaseFails kv2
          (Except.error e, r.2)

/-- The module-level singleton `export const distributedLock = new
DistributedLock(redisClient)`: one instance per process, parameterised by the
random token its constructor drew. -/
def distributedLock (randomToken : String) : DistributedLock :=
  ⟨randomToken⟩

/-! Basic lemmas about the store. -/

theorem KV.find_filter_ne (l : List KVEntry) (k : String) :
    (l.filter (fun e => e.key != k)).find? (fun e => e.key == k) = none := by
  induction l with
  | nil => rfl
  | cons e rest ih =>
      by_cases h : e.key = k
      · simp [List.filter, h, ih]
      · simp only [List.filter]
        have hb : (e.key != k) = true := by simp [h]
        rw [hb]
        simp only [List.find?]
        have hb2 : (e.key == k) = false := by simp [h]
        rw [hb2]
        exact ih

theorem KV.get_del_self (kv : KV) (k : String) : (kv.del k).get k = none := by
  unfold KV.get KV.del
  rw [KV.find_filter_ne]

theorem KV.setNX_of_get_none (kv : KV) (k v : String) (ttl : Nat)
    (h : kv.get k = none) :
    kv.setNX k v ttl =
      (true,
        { entries := ⟨k, v, kv.now + ttl⟩ :: kv.entries.filter (fun e => e.key != k),
          now := kv.now }) := by
  unfold KV.setNX
  rw [h]

theorem KV.setNX_of_get_some (kv : KV) (k v w : String) (ttl : Nat)
    (h : kv.get k = some w) :
    kv.setNX k v ttl = (false, kv) := by
  unfold KV.setNX
  rw [h]

theorem KV.get_setNX_self (kv : KV) (k v : String) (ttl : Nat)
    (h : kv.get k = none) (httl : 0 < ttl) :
    (kv.setNX k v ttl).2.get k = some v := by
  rw [KV.setNX_of_get_none kv k v ttl h]
  unfold KV.get
  simp only [List.find?]
  have hk : (k == k) = true := by simp
  simp only [hk]
  simp [httl]

theorem KV.get_tick_none (kv : KV) (k : String) (dt : Nat)
    (h : kv.get k = none) : (kv.tick dt).get k = none := by
  unfold KV.get KV.tick at *
  cases hf : kv.entries.find? (fun e => e.key == k) with
  | none => simp [hf]
  | some e =>
      rw [hf] at h
      simp only [hf]
      by_cases hlt : kv.now < e.expiresAt
      · simp [hlt] at h
      · have : ¬ kv.now + dt < e.expiresAt := by omega
        simp [this]

/-! Characterisation lemmas for acquire and release. -/

theorem DistributedLock.acquire_true_iff (L : DistributedLock) (key : String)
    (ttlMs : Nat) (fail : Bool) (kv : KV) :
    (L.acquire key ttlMs fail kv).1 = true ↔
      fail = false ∧ ttlMs ≠ 0 ∧ kv.get (lockKey key) = none := by
  unfold DistributedLock.acquire
  cases fail with
  | true => simp
  | false =>
      by_cases ht : ttlMs = 0
      · simp [ht]
      · have hb : (ttlMs == 0) = false := by simp [ht]
        simp only [hb, Bool.false_or, Bool.or_false, if_neg (by simp [ht] : ¬ ((false || (ttlMs == 0)) = true))]
        cases hg : kv.get (lockKey key) with
        | none => simp [KV.setNX_of_get_none kv _ _ _ hg, ht]
        | some w => simp [KV.setNX_of_get_some kv _ _ w _ hg]

theorem DistributedLock.acquire_false_state (L : DistributedLock) (key : String)
    (ttlMs : Nat) (fail : Bool) (kv : KV)
    (h : (L.acquire key ttlMs fail kv).1 = false) :
    (L.acquire key ttlMs fail kv).2 = kv := by
  unfold DistributedLock.acquire at *
  by_cases hc : (fail || (ttlMs == 0)) = true
  · simp [hc]
  · simp only [if_neg hc] at *
    cases hg : kv.get (lockKey key) with
    | none => rw [KV.setNX_of_get_none kv _ _ _ hg] at h; simp at h
    | some w => rw [KV.setNX_of_get_some kv _ _ w _ hg]

theorem DistributedLock.acquire_true_state (L : DistributedLock) (key : String)
    (ttlMs : Nat) (fail : Bool) (kv : KV)
    (h : (L.acquire key ttlMs fail kv).1 = true) :
    (L.acquire key ttlMs fail kv).2.get (lockKey key) = some L.lockValue ∧
      (L.acquire key ttlMs fail kv).2.now = kv.now := by
  have hiff := (L.acquire_true_iff key ttlMs fail kv).mp h
  obtain ⟨hf, ht, hg⟩ := hiff
  unfold DistributedLock.acquire
  have hc : (fail || (ttlMs == 0)) = false := by simp [hf, ht]
  simp only [hc, Bool.false_eq_true, if_false]
  rw [KV.setNX_of_get_none kv _ _ _ hg]
  constructor
  · unfold KV.get
    simp only [List.find?]
    have hk : (lockKey key == lockKey key) = true := by simp
    simp only [hk]
    have hlt : kv.now < kv.now + ttlMs := by omega
    simp [hlt]
  · rfl

theorem DistributedLock.release_true_iff (L : DistributedLock) (key : String)
    (fail : Bool) (kv : KV) :
    (L.release key fail kv).1 = true ↔
      fail = false ∧ kv.get (lockKey key) = some L.lockValue := by
  unfold DistributedLock.release
  cases fail with
  | true => simp
  | false =>
      simp only [Bool.false_eq_true, if_false]
      cases hg : kv.get (lockKey key) with
      | none => simp
      | some w =>
          by_cases hw : w = L.lockValue
          · simp [hw]
          · simp [hw, Ne.symm hw]

theorem DistributedLock.release_false_state (L : DistributedLock) (key : String)
    (fail : Bool) (kv : KV)
    (h : (L.release key fail kv).1 = false) :
    (L.release key fail kv).2 = kv := by
  unfold DistributedLock.release at *
  cases fail with
  | true => simp
  | false =>
      simp only [Bool.false_eq_true, if_false] at *
      cases hg : kv.get (lockKey key) with
      | none => simp
      | some w =>
          simp only [hg] at h ⊢
          by_cases hw : w = L.lockValue
          · simp [hw] at h
          · simp [hw]

theorem DistributedLock.release_true_state (L : DistributedLock) (key : String)
    (fail : Bool) (kv : KV)
    (h : (L.release key fail kv).1 = true) :
    (L.release key fail kv).2 = kv.del (lockKey key) := by
  have hiff := (L.release_true_iff key fail kv).mp h
  obtain ⟨hf, hg⟩ := hiff
  unfold DistributedLock.release
  subst hf
  simp only [Bool.false_eq_true, if_false, hg]
  simp

/-- C9: `DistributedLock.acquire` never throws: it returns true exactly when
the atomic set-if-absent with TTL succeeds (store call healthy, valid expiry,
key currently absent), and returns false — with the store unchanged — both on
contention (key already present) and on any store-level error, so a caller
cannot distinguish contention from a transport failure through this
interface. -/
theorem acquire_returns_false_never_throws (L : DistributedLock) (key : String)
    (ttlMs : Nat) (fail : Bool) (kv : KV) :
    ((L.acquire key ttlMs fail kv).1 = true ↔
      fail = false ∧ ttlMs ≠ 0 ∧ kv.get (lockKey key) = none) ∧
    (fail = true → L.acquire key ttlMs fail kv = (false, kv)) ∧
    (∀ w, kv.get (lockKey key) = some w → L.acquire key ttlMs fail kv = (false, kv)) ∧
    ((L.acquire key ttlMs fail kv).1 = false → (L.acquire key ttlMs fail kv).2 = kv) := by
  refine ⟨L.acquire_true_iff key ttlMs fail kv, ?_, ?_, ?_⟩
  · intro hf
    subst hf
    unfold DistributedLock.acquire
    simp
  · intro w hw
    unfold DistributedLock.acquire
    by_cases hc : (fail || (ttlMs == 0)) = true
    · simp [hc]
    · simp only [if_neg hc]
      exact KV.setNX_of_get_some kv _ _ w _ hw
  · exact L.acquire_false_state key ttlMs fail kv

/-- Witness for the acquire contract, on a concrete store already holding
the key for a different owner: the call answers false and leaves the store
untouched. -/
theorem acquire_returns_false_never_throws_witness :
    (DistributedLock.mk "aaaa").acquire "jobs" 5000 false
        (KV.mk [KVEntry.mk "lock:jobs" "bbbb" 100] 0) =
      (false, KV.mk [KVEntry.mk "lock:jobs" "bbbb" 100] 0) :=
  (acquire_returns_false_never_throws (DistributedLock.mk "aaaa") "jobs" 5000 false
      (KV.mk [KVEntry.mk "lock:jobs" "bbbb" 100] 0)).2.2.1 "bbbb" (by decide)

/-- C6: `DistributedLock.release` deletes the key exactly when its current
value equals the releasing instance's own owner token, the check and delete
taken atomically; it returns false and leaves the store unchanged when the
lock is not held by this instance or has already expired, and a release by a
non-owner never removes a lock held by another owner. -/
theorem release_owner_token_check (L : DistributedLock) (key : String)
    (fail : Bool) (kv : KV) :
    ((L.release key fail kv).1 = true ↔
      fail = false ∧ kv.get (lockKey key) = some L.lockValue) ∧
    ((L.release key fail kv).1 = false → (L.release key fail kv).2 = kv) ∧
    ((L.release key fail kv).1 = true →
      (L.release key fail kv).2 = kv.del (lockKey key) ∧
      ((L.release key fail kv).2).get (lockKey key) = none) ∧
    (∀ w, kv.get (lockKey key) = some w → w ≠ L.lockValue →
      L.release key fail kv = (false, kv)) := by
  refine ⟨L.release_true_iff key fail kv, L.release_false_state key fail kv, ?_, ?_⟩
  · intro h
    have hst := L.release_true_state key fail kv h
    refine ⟨hst, ?_⟩
    rw [hst]
    exact KV.get_del_self kv (lockKey key)
  · intro w hw hne
    have h1 : (L.release key fail kv).1 = false := by
      cases hb : (L.release key fail kv).1 with
      | false => rfl
      | true =>
          have := (L.release_true_iff key fail kv).mp hb
          rw [hw] at this
          exact absurd (Option.some.inj this.2) hne
    have h2 := L.release_false_state key fail kv h1
    have hpair : L.release key fail kv =
        ((L.release key fail kv).1, (L.release key fail kv).2) := rfl
    rw [hpair, h1, h2]

/-- Witness for the release contract, on a concrete store holding the key
for a different owner: the non-owner release answers false and the other
owner's lock survives. -/
theorem release_owner_token_check_witness :
    (DistributedLock.mk "aaaa").release "jobs" false
        (KV.mk [KVEntry.mk "lock:jobs" "bbbb" 100] 0) =
      (false, KV.mk [KVEntry.mk "lock:jobs" "bbbb" 100] 0) :=
  (release_owner_token_check (DistributedLock.mk "aaaa") "jobs" false
      (KV.mk [KVEntry.mk "lock:jobs" "bbbb" 100] 0)).2.2.2 "bbbb" (by decide) (by decide)

/-! Reduction lemmas for withLock. -/

theorem DistributedLock.withLock_acquire_fail_eq {α : Type} (L : DistributedLock)
    (key : String) (ttlMs : Nat) (cb : KV → Except String α × KV)
    (aF rF : Bool) (kv : KV)
    (h : (L.acquire key ttlMs aF kv).1 = false) :
    L.withLock key ttlMs cb aF rF kv =
      (Except.error ("Failed to acquire lock: " ++ key), kv) := by
  have h2 := L.acquire_false_state key ttlMs aF kv h
  have hpair : L.acquire key ttlMs aF kv = (false, kv) := by
    have hx : L.acquire key ttlMs aF kv =
        ((L.acquire key ttlMs aF kv).1, (L.acquire key ttlMs aF kv).2) := rfl
    rw [hx, h, h2]
  unfold DistributedLock.withLock
  rw [hpair]

theorem DistributedLock.withLock_success_eq {α : Type} (L : DistributedLock)
    (key : String) (ttlMs : Nat) (cb : KV → Except String α × KV)
    (kv kv2 : KV) (out : Except String α)
    (h : (L.acquire key ttlMs false kv).1 = true)
    (hcb : cb (L.acquire key ttlMs false kv).2 = (out, kv2))
    (hheld : kv2.get (lockKey key) = some L.lockValue) :
    L.withLock key ttlMs cb false false kv = (out, kv2.del (lockKey key)) := by
  have hpair : L.acquire key ttlMs false kv =
      (true, (L.acquire key ttlMs false kv).2) := by
    have hx : L.acquire key ttlMs false kv =
        ((L.acquire key ttlMs false kv).1, (L.acquire key ttlMs false kv).2) := rfl
    rw [hx, h]
  have hrel1 : (L.release key false kv2).1 = true :=
    (L.release_true_iff key false kv2).mpr ⟨rfl, hheld⟩
  have hrel : L.release key false kv2 = (true, kv2.del (lockKey key)) := by
    have hs := L.release_true_state key false kv2 hrel1
    have hx : L.release key false kv2 =
        ((L.release key false kv2).1, (L.release key false kv2).2) := rfl
    rw [hx, hrel1, hs]
  unfold DistributedLock.withLock
  rw [hpair]
  cases out with
  | ok a =>
      simp only [hcb]
      rw [hrel]
  | error e =>
      simp only [hcb]
      rw [hrel]

/-- C7: `withLock` throws the lock-unavailable error, without running the
callback, whenever acquisition fails; when acquisition succeeds it runs the
callback and always releases afterwards, including when the callback throws,
in which case the callback's error is propagated after the release, and a
subsequent acquire on the same key then succeeds. -/
theorem withLock_guaranteed_release {α : Type} (L : DistributedLock) (key : String)
    (ttlMs : Nat) (cb : KV → Except String α × KV) (kv : KV) :
    (∀ aF rF, (L.acquire key ttlMs aF kv).1 = false →
      L.withLock key ttlMs cb aF rF kv =
        (Except.error ("Failed to acquire lock: " ++ key), kv) ∧
      (∀ cb2 : KV → Except String α × KV,
        L.withLock key ttlMs cb aF rF kv = L.withLock key ttlMs cb2 aF rF kv)) ∧
    (∀ e kv2, (L.acquire key ttlMs false kv).1 = true →
      cb (L.acquire key ttlMs false kv).2 = (Except.error e, kv2) →
      kv2.get (lockKey key) = some L.lockValue →
      L.withLock key ttlMs cb false false kv =
        (Except.error e, kv2.del (lockKey key)) ∧
      (∀ M : DistributedLock, ∀ ttl2 : Nat, ttl2 ≠ 0 →
        (M.acquire key ttl2 false (kv2.del (lockKey key))).1 = true)) ∧
    (∀ a kv2, (L.acquire key ttlMs false kv).1 = true →
      cb (L.acquire key ttlMs false kv).2 = (Except.ok a, kv2) →
      kv2.get (lockKey key) = some L.lockValue →
      L.withLock key ttlMs cb false false kv =
        (Except.ok a, kv2.del (lockKey key)) ∧
      (∀ M : DistributedLock, ∀ ttl2 : Nat, ttl2 ≠ 0 →
        (M.acquire key ttl2 false (kv2.del (lockKey key))).1 = true)) := by
  refine ⟨?_, ?_, ?_⟩
  · intro aF rF hfail
    refine ⟨L.withLock_acquire_fail_eq key ttlMs cb aF rF kv hfail, ?_⟩
    intro cb2
    rw [L.withLock_acquire_fail_eq key ttlMs cb aF rF kv hfail,
      L.withLock_acquire_fail_eq key ttlMs cb2 aF rF kv hfail]
  · intro e kv2 hacq hcb hheld
    refine ⟨L.withLock_success_eq key ttlMs cb kv kv2 (Except.error e) hacq hcb hheld, ?_⟩
    intro M ttl2 ht2
    exact (M.acquire_true_iff key ttl2 false (kv2.del (lockKey key))).mpr
      ⟨rfl, ht2, KV.get_del_self kv2 (lockKey key)⟩
  · intro a kv2 hacq hcb hheld
    refine ⟨L.withLock_success_eq key ttlMs cb kv kv2 (Except.ok a) hacq hcb hheld, ?_⟩
    intro M ttl2 ht2
    exact (M.acquire_true_iff key ttl2 false (kv2.del (lockKey key))).mpr
      ⟨rfl, ht2, KV.get_del_self kv2 (lockKey key)⟩

/-- Witness for the withLock contract: on an empty store, with a callback
that throws "boom", withLock propagates "boom" and leaves the lock key
free. -/
theorem withLock_guaranteed_release_witness :
    (DistributedLock.mk "tk").withLock "k" 100
        (fun s => ((Except.error "boom" : Except String Nat), s)) false false (KV.mk [] 0) =
      ((Except.error "boom" : Except String Nat),
        (KV.mk [KVEntry.mk "lock:k" "tk" 100] 0).del (lockKey "k")) :=
  ((withLock_guaranteed_release (DistributedLock.mk "tk") "k" 100
      (fun s => ((Except.error "boom" : Except String Nat), s)) (KV.mk [] 0)).2.1
    "boom" (KV.mk [KVEntry.mk "lock:k" "tk" 100] 0) (by decide) rfl (by decide)).1

/-- C10: the owner token of a `DistributedLock` instance is fixed once, at
construction; every successful acquire through the process-wide singleton
stores exactly that token, on every key, and any lock currently held with it
is releasable through the singleton regardless of which call path acquired
it. -/
theorem singleton_owner_token (randomToken : String) (kv : KV)
    (key : String) (ttlMs : Nat) :
    ((distributedLock randomToken).lockValue = randomToken) ∧
    (((distributedLock randomToken).acquire key ttlMs false kv).1 = true →
      ((distributedLock randomToken).acquire key ttlMs false kv).2.get (lockKey key) =
        some randomToken) ∧
    (kv.get (lockKey key) = some randomToken →
      ((distributedLock randomToken).release key false kv).1 = true ∧
      ((distributedLock randomToken).release key false kv).2 = kv.del (lockKey key)) := by
  refine ⟨rfl, ?_, ?_⟩
  · intro h
    exact ((distributedLock randomToken).acquire_true_state key ttlMs false kv h).1
  · intro hheld
    have h1 : ((distributedLock randomToken).release key false kv).1 = true :=
      ((distributedLock randomToken).release_true_iff key false kv).mpr ⟨rfl, hheld⟩
    exact ⟨h1, (distributedLock randomToken).release_true_state key false kv h1⟩

/-- Witness for the singleton-token contract: a lock stored with the
singleton's token is released successfully by the singleton. -/
theorem singleton_owner_token_witness :
    ((distributedLock "t0").release "a" false
        (KV.mk [KVEntry.mk "lock:a" "t0" 10] 0)).1 = true :=
  ((singleton_owner_token "t0" (KV.mk [KVEntry.mk "lock:a" "t0" 10] 0) "a" 1).2.2
    (by decide)).1

/-! Mutual exclusion over interleaved histories.

Concurrent callers against one lock key are modelled by the sequential
interleaving the store imposes (Redis executes commands one at a time):
an event is an acquire attempt or a release attempt by an instance carrying
some token, or the passage of time. -/

/-- One observable event against a single lock key. -/
inductive LockEvent where
  | acq (token : String) (ttlMs : Nat)
  | rel (token : String)
  | tick (dt : Nat)
deriving DecidableEq

/-- Execute one event against the store, returning the boolean answer of the
executed store call (meaningful for acquire events) and the next store
state. -/
def lockStep (key : String) (kv : KV) : LockEvent → Bool × KV
  | .acq t ttl => (DistributedLock.mk t).acquire key ttl false kv
  | .rel t => (DistributedLock.mk t).release key false kv
  | .tick dt => (false, kv.tick dt)

/-- Whether an event is an acquire attempt. -/
def LockEvent.isAcquire : LockEvent → Bool
  | .acq _ _ => true
  | _ => false

/-- Whether the key currently holds a live (unexpired) lock. -/
def lockLive (key : String) (kv : KV) : Bool :=
  (kv.get (lockKey key)).isSome

/-- Number of acquire events of the history that return true. -/
def countAcqTrue (key : String) (kv : KV) : List LockEvent → Nat
  | [] => 0
  | e :: es =>
      (if e.isAcquire && (lockStep key kv e).1 then 1 else 0) +
        countAcqTrue key (lockStep key kv e).2 es

/-- Number of events of the history that free the key: transitions from a
live lock to no live lock (successful releases and TTL expiries). -/
def countFrees (key : String) (kv : KV) : List LockEvent → Nat
  | [] => 0
  | e :: es =>
      (if lockLive key kv && !(lockLive key (lockStep key kv e).2) then 1 else 0) +
        countFrees key (lockStep key kv e).2 es

/-- A freeing transition is caused only by a successful release of the key
or by the passage of time past the TTL, never by an acquire. -/
theorem free_is_release_or_expiry (key : String) (kv : KV) (e : LockEvent)
    (hlive : lockLive key kv = true)
    (hdead : lockLive key (lockStep key kv e).2 = false) :
    (∃ t, e = .rel t ∧ (lockStep key kv e).1 = true) ∨ (∃ dt, e = .tick dt) := by
  cases e with
  | acq t ttl =>
      exfalso
      cases hb : ((DistributedLock.mk t).acquire key ttl false kv).1 with
      | true =>
          have hfacts := ((DistributedLock.mk t).acquire_true_iff key ttl false kv).mp hb
          simp [lockLive, hfacts.2.2] at hlive
      | false =>
          have hst := (DistributedLock.mk t).acquire_false_state key ttl false kv hb
          simp only [lockStep] at hdead
          rw [hst] at hdead
          rw [hlive] at hdead
          simp at hdead
  | rel t =>
      left
      refine ⟨t, rfl, ?_⟩
      cases hb : ((DistributedLock.mk t).release key false kv).1 with
      | true => simp only [lockStep]; exact hb
      | false =>
          have hst := (DistributedLock.mk t).release_false_state key false kv hb
          simp only [lockStep] at hdead
          rw [hst] at hdead
          rw [hlive] at hdead
          simp at hdead
  | tick dt => exact Or.inr ⟨dt, rfl⟩

theorem countAcqTrue_le_invariant (key : String) (es : List LockEvent) :
    ∀ kv : KV, countAcqTrue key kv es ≤
      countFrees key kv es + (if lockLive key kv = true then 0 else 1) := by
  induction es with
  | nil =>
      intro kv
      simp [countAcqTrue, countFrees]
  | cons e es ih =>
      intro kv
      have IH := ih (lockStep key kv e).2
      by_cases hA : (e.isAcquire && (lockStep key kv e).1) = true
      · cases e with
        | rel t => simp [LockEvent.isAcquire] at hA
        | tick dt => simp [LockEvent.isAcquire] at hA
        | acq t ttl =>
            have h1 : ((DistributedLock.mk t).acquire key ttl false kv).1 = true := by
              simpa [LockEvent.isAcquire, lockStep] using hA
            have hfacts := ((DistributedLock.mk t).acquire_true_iff key ttl false kv).mp h1
            have hdead : lockLive key kv = false := by
              simp [lockLive, hfacts.2.2]
            have hlive2 : lockLive key (lockStep key kv (.acq t ttl)).2 = true := by
              have hget := ((DistributedLock.mk t).acquire_true_state key ttl false kv h1).1
              simp [lockLive, lockStep, hget]
            simp only [countAcqTrue, countFrees]
            rw [if_pos hA, hdead]
            rw [hlive2] at IH
            simp at IH ⊢
            omega
      · simp only [countAcqTrue, countFrees]
        rw [if_neg hA]
        cases hl2 : lockLive key (lockStep key kv e).2 with
        | true =>
            rw [hl2] at IH
            cases hl : lockLive key kv with
            | true =>
                simp at IH ⊢
                omega
            | false =>
                simp at IH ⊢
                omega
        | false =>
            rw [hl2] at IH
            cases hl : lockLive key kv with
            | true =>
                simp at IH ⊢
                omega
            | false =>
                simp at IH ⊢
                omega

/-- C1: over every interleaved history of acquire calls, release calls and
time passage against one key, the number of acquire calls that return true
never exceeds one more than the number of events freeing the key (successful
releases and TTL expiries) — at most one acquire succeeds until a release or
TTL expiry occurs. -/
theorem acquire_mutual_exclusion (key : String) (kv : KV) (es : List LockEvent) :
    countAcqTrue key kv es ≤ countFrees key kv es + 1 := by
  have h := countAcqTrue_le_invariant key es kv
  by_cases hl : lockLive key kv = true
  · rw [if_pos hl] at h
    omega
  · rw [if_neg hl] at h
    omega

/-! Optimistic locking for DiscoveryBatch updates, translated from
`src/backend/src/services/discovery/optimisticBatchUpdate.ts`.  The
relational store is external; its `findUnique` / conditional `update`
primitives are modelled per attempt. -/

/-- The updatable fields of a batch row (interface BatchUpdateData); a field
left `none` is not touched.  `errorMessage` distinguishes "set to null"
(`some none`) from "leave alone" (`none`). -/
structure BatchUpdateData where
  status : Option String := none
  totalAlbums : Option Nat := none
  completedAlbums : Option Nat := none
  failedAlbums : Option Nat := none
  finalSongCount : Option Nat := none
  errorMessage : Option (Option String) := none
  completedAt : Option Nat := none
deriving DecidableEq

/-- A DiscoveryBatch row: the columns updateBatchStatus touches, plus the
monotonic version column. -/
@[ext]
structure BatchRow where
  status : String
  totalAlbums : Nat
  completedAlbums : Nat
  failedAlbums : Nat
  finalSongCount : Nat
  errorMessage : Option String
  completedAt : Option Nat
  version : Nat
deriving DecidableEq

/-- The result object of updateBatchStatus (interface BatchUpdateResult). -/
structure BatchUpdateResult where
  success : Bool
  version : Option Nat
  retries : Nat
  error : Option String
deriving DecidableEq

/-- Merge the spread `...data` into a row, leaving the version column to the
caller (the source writes `version: nextVersion` alongside the spread). -/
def applyData (row : BatchRow) (d : BatchUpdateData) : BatchRow :=
  { status := d.status.getD row.status,
    totalAlbums := d.totalAlbums.getD row.totalAlbums,
    completedAlbums := d.completedAlbums.getD row.completedAlbums,
    failedAlbums := d.failedAlbums.getD row.failedAlbums,
    finalSongCount := d.finalSongCount.getD row.finalSongCount,
    errorMessage := d.errorMessage.getD row.errorMessage,
    completedAt := match d.completedAt with
      | some x => some x
      | none => row.completedAt,
    version := row.version }

/-- What the relational store does with one loop iteration of
updateBatchStatus: the findUnique answers "no such row" or yields a version,
after which the conditional update either matches (applies), raises the
version-conflict error P2025, or raises some other error. -/
inductive AttemptOutcome where
  | notFound
  | casOk (currentVersion : Nat)
  | conflict
  | otherError (msg : String)
deriving DecidableEq

/-- The while-loop body of updateBatchStatus, driven by the store's
behaviour at each iteration (`env i` is what the store does on the i-th
iteration).  The fuel argument only bounds the recursion; called with
`maxRetries + 1 - retries` fuel the zero-fuel branch mirrors the dead
"Update loop exited unexpectedly" return after the while condition. -/
def updateGo (batchId : String) (maxRetries : Nat) (env : Nat → AttemptOutcome) :
    Nat → Nat → Nat → BatchUpdateResult
  | _, retries, 0 =>
      ⟨false, none, retries, some "Update loop exited unexpectedly"⟩
  | iter, retries, fuel + 1 =>
      match env iter with
      | .notFound =>
          ⟨false, none, retries, some ("Batch " ++ batchId ++ " not found")⟩
      | .casOk v =>
          ⟨true, some (v + 1), retries, none⟩
      | .conflict =>
          if retries + 1 > maxRetries then
            ⟨false, none, retries + 1,
              some ("Max retries reached after " ++ toString maxRetries ++ " attempts")⟩
          else
            updateGo batchId maxRetries env (iter + 1) (retries + 1) fuel
      | .otherError m =>
          ⟨false, none, retries, some ("Unexpected error: " ++ m)⟩

/-- updateBatchStatus from the source, for a store behaving as `env`:
retries start at zero and the loop runs while `retries ≤ maxRetries`. -/
def updateBatchStatus (batchId : String) (maxRetries : Nat)
    (env : Nat → AttemptOutcome) : BatchUpdateResult :=
  updateGo batchId maxRetries env 0 0 (maxRetries + 1)

theorem updateGo_after_conflicts (batchId : String) (maxRetries : Nat)
    (env : Nat → AttemptOutcome) (k : Nat) :
    ∀ iter retries fuel, retries + fuel = maxRetries + 1 →
      retries + k ≤ maxRetries →
      (∀ j, j < k → env (iter + j) = .conflict) →
      updateGo batchId maxRetries env iter retries fuel =
        updateGo batchId maxRetries env (iter + k) (retries + k)
          (maxRetries + 1 - (retries + k)) := by
  induction k with
  | zero =>
      intro iter retries fuel hfuel hle _
      have : fuel = maxRetries + 1 - retries := by omega
      simp [this]
  | succ k ih =>
      intro iter retries fuel hfuel hle hconf
      have hc0 : env iter = .conflict := by
        have := hconf 0 (by omega)
        simpa using this
      cases fuel with
      | zero => omega
      | succ fuel =>
          rw [updateGo]
          rw [hc0]
          have hnotgt : ¬ (retries + 1 > maxRetries) := by omega
          rw [if_neg hnotgt]
          have hstep := ih (iter + 1) (retries + 1) fuel (by omega) (by omega)
            (fun j hj => by
              have := hconf (j + 1) (by omega)
              rw [show iter + 1 + j = iter + (j + 1) by omega]
              exact this)
          rw [hstep]
          have h1 : iter + 1 + k = iter + (k + 1) := by omega
          have h2 : retries + 1 + k = retries + (k + 1) := by omega
          rw [h1, h2]

theorem updateGo_all_conflicts (batchId : String) (maxRetries : Nat)
    (env : Nat → AttemptOutcome)
    (hconf : ∀ j, env j = .conflict) :
    ∀ fuel iter retries, retries + fuel = maxRetries + 1 → 0 < fuel →
      updateGo batchId maxRetries env iter retries fuel =
        ⟨false, none, maxRetries + 1,
          some ("Max retries reached after " ++ toString maxRetries ++ " attempts")⟩ := by
  intro fuel
  induction fuel with
  | zero => intro iter retries _ h0; omega
  | succ fuel ih =>
      intro iter retries hfuel _
      rw [updateGo, hconf iter]
      by_cases hgt : retries + 1 > maxRetries
      · rw [if_pos hgt]
        have : retries + 1 = maxRetries + 1 := by omega
        rw [this]
      · rw [if_neg hgt]
        exact ih (iter + 1) (retries + 1) (by omega) (by omega)

/-- C5: updateBatchStatus reports every failure mode as a returned result
(the embedding is a total function into BatchUpdateResult, never an
exception): a missing record fails immediately with zero retries; pure
version conflicts retry and, past the budget, return a recoverable failure
carrying the retry count; any other error surfaces immediately after the
conflicts seen so far, and a conditional update that matches after k
conflicts succeeds with retry count k. -/
theorem updateBatchStatus_failure_modes (batchId : String) (maxRetries : Nat)
    (env : Nat → AttemptOutcome) :
    (env 0 = .notFound →
      updateBatchStatus batchId maxRetries env =
        ⟨false, none, 0, some ("Batch " ++ batchId ++ " not found")⟩) ∧
    ((∀ j, env j = .conflict) →
      updateBatchStatus batchId maxRetries env =
        ⟨false, none, maxRetries + 1,
          some ("Max retries reached after " ++ toString maxRetries ++ " attempts")⟩) ∧
    (∀ k m, k ≤ maxRetries → (∀ j, j < k → env j = .conflict) →
      env k = .otherError m →
      updateBatchStatus batchId maxRetries env =
        ⟨false, none, k, some ("Unexpected error: " ++ m)⟩) ∧
    (∀ k v, k ≤ maxRetries → (∀ j, j < k → env j = .conflict) →
      env k = .casOk v →
      updateBatchStatus batchId maxRetries env =
        ⟨true, some (v + 1), k, none⟩) := by
  refine ⟨?_, ?_, ?_, ?_⟩
  · intro h0
    unfold updateBatchStatus
    rw [updateGo, h0]
  · intro hconf
    unfold updateBatchStatus
    exact updateGo_all_conflicts batchId maxRetries env hconf (maxRetries + 1) 0 0
      (by omega) (by omega)
  · intro k m hk hconf hk2
    unfold updateBatchStatus
    rw [updateGo_after_conflicts batchId maxRetries env k 0 0 (maxRetries + 1)
      (by omega) (by omega) (fun j hj => by simpa using hconf j hj)]
    have hfuel : maxRetries + 1 - (0 + k) = (maxRetries - k) + 1 := by omega
    rw [hfuel, updateGo]
    simp only [Nat.zero_add]
    rw [hk2]
  · intro k v hk hconf hk2
    unfold updateBatchStatus
    rw [updateGo_after_conflicts batchId maxRetries env k 0 0 (maxRetries + 1)
      (by omega) (by omega) (fun j hj => by simpa using hconf j hj)]
    have hfuel : maxRetries + 1 - (0 + k) = (maxRetries - k) + 1 := by omega
    rw [hfuel, updateGo]
    simp only [Nat.zero_add]
    rw [hk2]

/-- Witness for the failure-mode contract: with a store that answers one
conflict and then a version match, the update succeeds with retry count 1. -/
theorem updateBatchStatus_failure_modes_witness :
    updateBatchStatus "b1" 10
        (fun j => if j = 0 then .conflict else .casOk 3) =
      ⟨true, some 4, 1, none⟩ :=
  (updateBatchStatus_failure_modes "b1" 10
      (fun j => if j = 0 then .conflict else .casOk 3)).2.2.2 1 3
    (by decide) (fun j hj => by interval_cases j; decide) (by decide)

/-! Concurrent updaters against one batch row.  Each updater runs the
updateBatchStatus loop; the relational store serialises the two primitive
calls of an attempt (the version read and the conditional update, each
atomic), so an execution is a schedule saying which updater performs its
next primitive call. -/

/-- Program counter of one concurrent updater: about to read the version,
holding a read version and about to attempt the conditional update, or
finished with its result. -/
inductive UpdPC where
  | start
  | gotVersion (v : Nat)
  | finished (r : BatchUpdateResult)
deriving DecidableEq

/-- Whether an updater has finished with a successful result. -/
def UpdPC.isSuccess : UpdPC → Bool
  | .finished r => r.success
  | _ => false

/-- One concurrent updater: its program counter and its retry counter. -/
structure Updater where
  pc : UpdPC
  retries : Nat
deriving DecidableEq

/-- Global state: the batch row, the N updaters, and the history of applied
conditional updates (which updater's data, in application order). -/
structure ConcurrentSys (N : Nat) where
  row : BatchRow
  upd : Fin N → Updater
  log : List (Fin N)

/-- One atomic store interaction by updater `i`: its findUnique version
read, or its conditional update matching exactly the version it read — a
match applies the spread data and bumps the version by one, a mismatch is
the P2025 conflict, which re-enters the loop until the retry budget is
exhausted. -/
def sysStep {N : Nat} (maxRetries : Nat) (dataOf : Fin N → BatchUpdateData)
    (s : ConcurrentSys N) (i : Fin N) : ConcurrentSys N :=
  match (s.upd i).pc with
  | .start =>
      { s with upd :=
          Function.update s.upd i (Updater.mk (.gotVersion s.row.version) (s.upd i).retries) }
  | .gotVersion v =>
      if s.row.version = v then
        { row := { applyData s.row (dataOf i) with version := v + 1 },
          upd :=
            Function.update s.upd i
              (Updater.mk (.finished ⟨true, some (v + 1), (s.upd i).retries, none⟩)
                (s.upd i).retries),
          log := s.log ++ [i] }
      else if (s.upd i).retries + 1 > maxRetries then
        { s with
          upd := Function.update s.upd i
            (Updater.mk
              (.finished ⟨false, none, (s.upd i).retries + 1,
                some ("Max retries reached after " ++ toString maxRetries ++ " attempts")⟩)
              ((s.upd i).retries + 1)) }
      else
        { s with
          upd := Function.update s.upd i (Updater.mk .start ((s.upd i).retries + 1)) }
  | .finished _ => s

/-- Run a schedule of primitive calls from the initial state: the row as it
is at version 0 (the record exists throughout), every updater at its loop
entry with zero retries. -/
def sysRun {N : Nat} (maxRetries : Nat) (dataOf : Fin N → BatchUpdateData)
    (row0 : BatchRow) (sched : List (Fin N)) : ConcurrentSys N :=
  sched.foldl (sysStep maxRetries dataOf) ⟨row0, fun _ => ⟨.start, 0⟩, []⟩

/-- Replay a log of applied updates over the initial row: every update in
the log applied exactly once, in order, the version counting them. -/
def replayRow (row0 : BatchRow) {N : Nat} (dataOf : Fin N → BatchUpdateData)
    (log : List (Fin N)) : BatchRow :=
  { (log.map dataOf).foldl applyData row0 with version := log.length }

theorem applyData_with_version (r : BatchRow) (n : Nat) (d : BatchUpdateData) :
    applyData { r with version := n } d = { applyData r d with version := n } := rfl

theorem replayRow_version (row0 : BatchRow) {N : Nat}
    (dataOf : Fin N → BatchUpdateData) (log : List (Fin N)) :
    (replayRow row0 dataOf log).version = log.length := rfl

/-- The global invariant: the row is the replay of the applied-update log
(in particular its version is the log's length), the log mentions each
updater at most once, an updater reports success exactly when its update is
in the log, and every read version is at most the current version. -/
def SysInv {N : Nat} (dataOf : Fin N → BatchUpdateData) (row0 : BatchRow)
    (s : ConcurrentSys N) : Prop :=
  s.row = replayRow row0 dataOf s.log ∧
  s.log.Nodup ∧
  (∀ i, (s.upd i).pc.isSuccess = true ↔ i ∈ s.log) ∧
  (∀ i v, (s.upd i).pc = .gotVersion v → v ≤ s.row.version)

theorem sysStep_inv {N : Nat} (maxRetries : Nat) (dataOf : Fin N → BatchUpdateData)
    (row0 : BatchRow) (s : ConcurrentSys N) (i : Fin N)
    (h : SysInv dataOf row0 s) : SysInv dataOf row0 (sysStep maxRetries dataOf s i) := by
  obtain ⟨h1, h2, h3, h4⟩ := h
  have hver : s.row.version = s.log.length := by
    rw [h1, replayRow_version]
  cases hpc : (s.upd i).pc with
  | start =>
      have hnotin : i ∉ s.log := by
        intro hmem
        have hx := (h3 i).mpr hmem
        rw [hpc] at hx
        simp [UpdPC.isSuccess] at hx
      simp only [sysStep, hpc]
      refine ⟨h1, h2, ?_, ?_⟩
      · intro j
        by_cases hj : j = i
        · subst hj
          simp [Function.update_same, UpdPC.isSuccess, hnotin]
        · simp only [Function.update_noteq hj]
          exact h3 j
      · intro j w hw
        by_cases hj : j = i
        · subst hj
          simp [Function.update_same] at hw
          show w ≤ s.row.version
          omega
        · simp only [Function.update_noteq hj] at hw
          exact h4 j w hw
  | gotVersion v =>
      have hnotin : i ∉ s.log := by
        intro hmem
        have hx := (h3 i).mpr hmem
        rw [hpc] at hx
        simp [UpdPC.isSuccess] at hx
      by_cases hv : s.row.version = v
      · simp only [sysStep, hpc, if_pos hv]
        have hlen : v = s.log.length := by omega
        refine ⟨?_, ?_, ?_, ?_⟩
        · show { applyData s.row (dataOf i) with version := v + 1 } =
            replayRow row0 dataOf (s.log ++ [i])
          rw [h1]
          unfold replayRow
          rw [applyData_with_version]
          ext <;>
            simp [applyData, List.map_append, List.foldl_append, hlen]
        · show (s.log ++ [i]).Nodup
          exact List.Nodup.append h2 (List.nodup_singleton i)
            (by intro a ha hb; simp at hb; subst hb; exact hnotin ha)
        · intro j
          by_cases hj : j = i
          · subst hj
            simp [Function.update_same, UpdPC.isSuccess, List.mem_append]
          · simp only [Function.update_noteq hj]
            show (s.upd j).pc.isSuccess = true ↔ j ∈ s.log ++ [i]
            rw [h3 j]
            simp [List.mem_append, hj]
        · intro j w hw
          by_cases hj : j = i
          · subst hj
            simp [Function.update_same] at hw
          · simp only [Function.update_noteq hj] at hw
            have hle := h4 j w hw
            show w ≤ v + 1
            omega
      · simp only [sysStep, hpc, if_neg hv]
        by_cases hr : (s.upd i).retries + 1 > maxRetries
        · rw [if_pos hr]
          refine ⟨h1, h2, ?_, ?_⟩
          · intro j
            by_cases hj : j = i
            · subst hj
              simp [Function.update_same, UpdPC.isSuccess, hnotin]
            · simp only [Function.update_noteq hj]
              exact h3 j
          · intro j w hw
            by_cases hj : j = i
            · subst hj
              simp [Function.update_same] at hw
            · simp only [Function.update_noteq hj] at hw
              exact h4 j w hw
        · rw [if_neg hr]
          refine ⟨h1, h2, ?_, ?_⟩
          · intro j
            by_cases hj : j = i
            · subst hj
              simp [Function.update_same, UpdPC.isSuccess, hnotin]
            · simp only [Function.update_noteq hj]
              exact h3 j
          · intro j w hw
            by_cases hj : j = i
            · subst hj
              simp [Function.update_same] at hw
            · simp only [Function.update_noteq hj] at hw
              exact h4 j w hw
  | finished r =>
      simp only [sysStep, hpc]
      exact ⟨h1, h2, h3, h4⟩

theorem sysRun_inv {N : Nat} (maxRetries : Nat) (dataOf : Fin N → BatchUpdateData)
    (row0 : BatchRow) (h0 : row0.version = 0) (sched : List (Fin N)) :
    SysInv dataOf row0 (sysRun maxRetries dataOf row0 sched) := by
  have hinit : SysInv dataOf row0 ⟨row0, fun _ => ⟨.start, 0⟩, []⟩ := by
    refine ⟨?_, List.nodup_nil, ?_, ?_⟩
    · unfold replayRow
      ext <;> simp [h0]
    · intro j
      simp [UpdPC.isSuccess]
    · intro j w hw
      simp at hw
  suffices hgen : ∀ (l : List (Fin N)) (s : ConcurrentSys N), SysInv dataOf row0 s →
      SysInv dataOf row0 (l.foldl (sysStep maxRetries dataOf) s) by
    exact hgen sched _ hinit
  intro l
  induction l with
  | nil => intro s hs; exact hs
  | cons a l ih =>
      intro s hs
      exact ih _ (sysStep_inv maxRetries dataOf row0 s a hs)

/-- C2: for every schedule of N concurrent updateBatchStatus calls against a
record starting at version 0, if every call reports success then the final
version equals N, and each call's field update was applied exactly once —
the log of applied updates mentions every updater exactly once and the final
row is exactly the replay of that log, its version counting one increment
per successful update. -/
theorem concurrent_update_version_equals_successes {N : Nat} (maxRetries : Nat)
    (dataOf : Fin N → BatchUpdateData) (row0 : BatchRow) (sched : List (Fin N))
    (h0 : row0.version = 0)
    (hall : ∀ i, ((sysRun maxRetries dataOf row0 sched).upd i).pc.isSuccess = true) :
    (sysRun maxRetries dataOf row0 sched).row.version = N ∧
    (sysRun maxRetries dataOf row0 sched).log.Nodup ∧
    (∀ i, i ∈ (sysRun maxRetries dataOf row0 sched).log) ∧
    (sysRun maxRetries dataOf row0 sched).log.length = N ∧
    (sysRun maxRetries dataOf row0 sched).row =
      replayRow row0 dataOf (sysRun maxRetries dataOf row0 sched).log := by
  obtain ⟨h1, h2, h3, _⟩ := sysRun_inv maxRetries dataOf row0 h0 sched
  have hmem : ∀ i, i ∈ (sysRun maxRetries dataOf row0 sched).log :=
    fun i => (h3 i).mp (hall i)
  have hlen : (sysRun maxRetries dataOf row0 sched).log.length = N := by
    have hcard : (sysRun maxRetries dataOf row0 sched).log.toFinset = Finset.univ :=
      Finset.eq_univ_iff_forall.mpr (fun i => List.mem_toFinset.mpr (hmem i))
    have := List.toFinset_card_of_nodup h2
    rw [hcard] at this
    simp at this
    omega
  refine ⟨?_, h2, hmem, hlen, h1⟩
  rw [h1, replayRow_version, hlen]

/-- Witness for the concurrent-update theorem: two updaters, each reading
then writing without interference, both succeed; the theorem yields final
version 2. -/
theorem concurrent_update_version_equals_successes_witness :
    (sysRun 10 (fun _ : Fin 2 => ⟨some "downloading", none, some 1, none, none, none, none⟩)
        ⟨"pending", 0, 0, 0, 0, none, none, 0⟩
        ([0, 0, 1, 1] : List (Fin 2))).row.version = 2 :=
  (concurrent_update_version_equals_successes 10
    (fun _ : Fin 2 => ⟨some "downloading", none, some 1, none, none, none, none⟩)
    ⟨"pending", 0, 0, 0, 0, none, none, 0⟩
    ([0, 0, 1, 1] : List (Fin 2)) rfl (by decide)).1

/-! The wire codec (class MessageParser), translated from the source: a byte
buffer read through a cursor.  Bytes are modelled as natural numbers below
256; a read that fails throws, modelled as `Except.error` carrying the
source's underflow message — the error constructor carries no value, so no
partial value can be returned. -/

/-- A MessageParser: the underlying buffer and the cursor. -/
structure MessageParser where
  data : List Nat
  pointer : Nat
deriving DecidableEq

/-- Byte at an index (reads are always bounds-checked before use). -/
def byteAt (l : List Nat) (i : Nat) : Nat := l.getD i 0

/-- Little-endian 32-bit read at an index (Buffer.readUInt32LE). -/
def readUInt32LE (l : List Nat) (i : Nat) : Nat :=
  byteAt l i + byteAt l (i + 1) * 256 + byteAt l (i + 2) * 65536 +
    byteAt l (i + 3) * 16777216

/-- Little-endian 64-bit read at an index (Buffer.readBigUInt64LE). -/
def readUInt64LE (l : List Nat) (i : Nat) : Nat :=
  readUInt32LE l i + readUInt32LE l (i + 4) * 4294967296

/-- MessageParser.int8: one byte at the cursor, cursor advances by 1. -/
def MessageParser.int8 (p : MessageParser) : Except String (Nat × MessageParser) :=
  if p.pointer + 1 > p.data.length then
    Except.error "Buffer underflow: cannot read int8"
  else
    Except.ok (byteAt p.data p.pointer, { p with pointer := p.pointer + 1 })

/-- MessageParser.int32: four little-endian bytes at the cursor, cursor
advances by 4. -/
def MessageParser.int32 (p : MessageParser) : Except String (Nat × MessageParser) :=
  if p.pointer + 4 > p.data.length then
    Except.error "Buffer underflow: cannot read int32"
  else
    Except.ok (readUInt32LE p.data p.pointer, { p with pointer := p.pointer + 4 })

/-- MessageParser.int64: eight little-endian bytes at the cursor, cursor
advances by 8. -/
def MessageParser.int64 (p : MessageParser) : Except String (Nat × MessageParser) :=
  if p.pointer + 8 > p.data.length then
    Except.error "Buffer underflow: cannot read int64"
  else
    Except.ok (readUInt64LE p.data p.pointer, { p with pointer := p.pointer + 8 })

/-- MessageParser.str: a 4-byte little-endian length prefix, then that many
payload bytes (the utf8 decoding of the span is external; the span itself is
returned), cursor advances by 4 plus the declared size. -/
def MessageParser.str (p : MessageParser) : Except String (List Nat × MessageParser) :=
  if p.pointer + 4 > p.data.length then
    Except.error "Buffer underflow: cannot read string length"
  else
    if p.pointer + 4 + readUInt32LE p.data p.pointer > p.data.length then
      Except.error "Buffer underflow: cannot read string data"
    else
      Except.ok ((p.data.drop (p.pointer + 4)).take (readUInt32LE p.data p.pointer),
        { p with pointer := p.pointer + 4 + readUInt32LE p.data p.pointer })

/-- MessageParser.rawHexStr: a raw span of `size` bytes (rendered as hex by
the source; the span itself is returned), cursor advances by `size`. -/
def MessageParser.rawHexStr (p : MessageParser) (size : Nat) :
    Except String (List Nat × MessageParser) :=
  if p.pointer + size > p.data.length then
    Except.error "Buffer underflow: cannot read raw hex string"
  else
    Except.ok ((p.data.drop p.pointer).take size,
      { p with pointer := p.pointer + size })

/-- C4: every MessageParser read underflows exactly when the remaining
buffer is shorter than the requested width — for strings first the 4-byte
length prefix, then the declared payload length — and never returns a
partial value (the error carries no value); on success it returns the bytes
at the cursor, leaves the buffer unchanged and advances the cursor by
exactly the consumed width. -/
theorem messageParser_underflow_spec (p : MessageParser) (size : Nat) :
    (p.int8 = Except.error "Buffer underflow: cannot read int8" ↔
      p.data.length < p.pointer + 1) ∧
    (∀ v q, p.int8 = Except.ok (v, q) →
      v = byteAt p.data p.pointer ∧ q.data = p.data ∧ q.pointer = p.pointer + 1) ∧
    (p.int32 = Except.error "Buffer underflow: cannot read int32" ↔
      p.data.length < p.pointer + 4) ∧
    (∀ v q, p.int32 = Except.ok (v, q) →
      v = readUInt32LE p.data p.pointer ∧ q.data = p.data ∧ q.pointer = p.pointer + 4) ∧
    (p.int64 = Except.error "Buffer underflow: cannot read int64" ↔
      p.data.length < p.pointer + 8) ∧
    (∀ v q, p.int64 = Except.ok (v, q) →
      v = readUInt64LE p.data p.pointer ∧ q.data = p.data ∧ q.pointer = p.pointer + 8) ∧
    (p.str = Except.error "Buffer underflow: cannot read string length" ↔
      p.data.length < p.pointer + 4) ∧
    (p.str = Except.error "Buffer underflow: cannot read string data" ↔
      p.pointer + 4 ≤ p.data.length ∧
        p.data.length < p.pointer + 4 + readUInt32LE p.data p.pointer) ∧
    (∀ v q, p.str = Except.ok (v, q) →
      v = (p.data.drop (p.pointer + 4)).take (readUInt32LE p.data p.pointer) ∧
        q.data = p.data ∧ q.pointer = p.pointer + 4 + readUInt32LE p.data p.pointer) ∧
    (p.rawHexStr size = Except.error "Buffer underflow: cannot read raw hex string" ↔
      p.data.length < p.pointer + size) ∧
    (∀ v q, p.rawHexStr size = Except.ok (v, q) →
      v = (p.data.drop p.pointer).take size ∧
        q.data = p.data ∧ q.pointer = p.pointer + size) := by
  refine ⟨?_, ?_, ?_, ?_, ?_, ?_, ?_, ?_, ?_, ?_, ?_⟩
  · unfold MessageParser.int8
    by_cases h : p.pointer + 1 > p.data.length
    · simp [h]
    · simp [h]
  · intro v q hvq
    unfold MessageParser.int8 at hvq
    by_cases h : p.pointer + 1 > p.data.length
    · simp [h] at hvq
    · simp [h] at hvq
      exact ⟨hvq.1.symm, by rw [← hvq.2], by rw [← hvq.2]⟩
  · unfold MessageParser.int32
    by_cases h : p.pointer + 4 > p.data.length
    · simp [h]
    · simp [h]
  · intro v q hvq
    unfold MessageParser.int32 at hvq
    by_cases h : p.pointer + 4 > p.data.length
    · simp [h] at hvq
    · simp [h] at hvq
      exact ⟨hvq.1.symm, by rw [← hvq.2], by rw [← hvq.2]⟩
  · unfold MessageParser.int64
    by_cases h : p.pointer + 8 > p.data.length
    · simp [h]
    · simp [h]
  · intro v q hvq
    unfold MessageParser.int64 at hvq
    by_cases h : p.pointer + 8 > p.data.length
    · simp [h] at hvq
    · simp [h] at hvq
      exact ⟨hvq.1.symm, by rw [← hvq.2], by rw [← hvq.2]⟩
  · unfold MessageParser.str
    by_cases h : p.pointer + 4 > p.data.length
    · simp [h]
    · by_cases h2 : p.pointer + 4 + readUInt32LE p.data p.pointer > p.data.length
      · simp [h, h2]
      · simp [h, h2]
  · unfold MessageParser.str
    by_cases h : p.pointer + 4 > p.data.length
    · simp [h]
    · by_cases h2 : p.pointer + 4 + readUInt32LE p.data p.pointer > p.data.length
      · simp [h, h2]; omega
      · simp [h, h2]
  · intro v q hvq
    unfold MessageParser.str at hvq
    by_cases h : p.pointer + 4 > p.data.length
    · simp [h] at hvq
    · by_cases h2 : p.pointer + 4 + readUInt32LE p.data p.pointer > p.data.length
      · simp [h, h2] at hvq
      · simp [h, h2] at hvq
        exact ⟨hvq.1.symm, by rw [← hvq.2], by rw [← hvq.2]⟩
  · unfold MessageParser.rawHexStr
    by_cases h : p.pointer + size > p.data.length
    · simp [h]
    · simp [h]
  · intro v q hvq
    unfold MessageParser.rawHexStr at hvq
    by_cases h : p.pointer + size > p.data.length
    · simp [h] at hvq
    · simp [h] at hvq
      exact ⟨hvq.1.symm, by rw [← hvq.2], by rw [← hvq.2]⟩

/-- Witness for the wire-codec contract: reading a 4-byte integer from a
3-byte buffer underflows (the spec's own example), via the iff at a concrete
parser. -/
theorem messageParser_underflow_spec_witness :
    MessageParser.int32 ⟨[7, 8, 9], 0⟩ =
      Except.error "Buffer underflow: cannot read int32" :=
  (messageParser_underflow_spec ⟨[7, 8, 9], 0⟩ 0).2.2.1.mpr (by decide)

/-! Download-job deduplication. -/

/-- The deduplication identity of a download job: (ownerId, batchId,
targetId). -/
structure JobKeyTuple where
  ownerId : String
  batchId : String
  targetId : String
deriving DecidableEq

/-- A persisted download job row. -/
structure DownloadJob where
  id : String
  ownerId : String
  batchId : String
  targetId : String
  status : String
deriving DecidableEq

/-- Whether a job status is terminal (status set is
pending/processing/completed/failed; completed and failed are terminal). -/
def isTerminal (status : String) : Bool :=
  status == "completed" || status == "failed"

/-- Whether a job row belongs to a (owner, batch, target) tuple. -/
def matchesTuple (t : JobKeyTuple) (j : DownloadJob) : Bool :=
  j.ownerId == t.ownerId && j.batchId == t.batchId && j.targetId == t.targetId

/-- Modelled from the spec: `createDownloadJob` of the AcquisitionCoordinator
(the acquisitionService source file is not part of this snapshot; only its
manual test is).  Per the specification: under a lock keyed by the (owner,
batch, target) tuple — which serialises concurrent calls, so two concurrent
calls are the sequential composition of two invocations — it checks for an
existing non-terminal job for the tuple; if found, returns it unchanged
(idempotent); otherwise inserts a new job row, with a fresh id, in pending
state. -/
def createDownloadJob (db : List DownloadJob) (t : JobKeyTuple)
    (freshId : String) : DownloadJob × List DownloadJob :=
  match db.find? (fun j => matchesTuple t j && !(isTerminal j.status)) with
  | some j => (j, db)
  | none =>
      (⟨freshId, t.ownerId, t.batchId, t.targetId, "pending"⟩,
        ⟨freshId, t.ownerId, t.batchId, t.targetId, "pending"⟩ :: db)

theorem createDownloadJob_result_nonterminal (db : List DownloadJob)
    (t : JobKeyTuple) (freshId : String) :
    matchesTuple t (createDownloadJob db t freshId).1 = true ∧
      isTerminal (createDownloadJob db t freshId).1.status = false ∧
      (createDownloadJob db t freshId).2.find?
          (fun j => matchesTuple t j && !(isTerminal j.status)) =
        some (createDownloadJob db t freshId).1 := by
  unfold createDownloadJob
  cases hf : db.find? (fun j => matchesTuple t j && !(isTerminal j.status)) with
  | some j =>
      have hp := List.find?_some hf
      rw [Bool.and_eq_true] at hp
      simp only []
      refine ⟨hp.1, ?_, hf⟩
      have hnt := hp.2
      simp at hnt
      exact hnt
  | none =>
      simp only []
      refine ⟨?_, ?_, ?_⟩
      · simp [matchesTuple]
      · simp [isTerminal]
      · rw [List.find?_cons]
        have : (matchesTuple t ⟨freshId, t.ownerId, t.batchId, t.targetId, "pending"⟩ &&
            !(isTerminal "pending")) = true := by
          simp [matchesTuple, isTerminal]
        rw [this]

/-- C3: two createDownloadJob calls for the same tuple, serialised by the
per-tuple lock, resolve to the same job and the second persists nothing, so
exactly one row exists for the tuple after a concurrent pair; when every
prior job of the tuple is terminal, a fresh call inserts a new pending job
carrying the fresh id, distinct from every existing id. -/
theorem createDownloadJob_dedup_spec (db : List DownloadJob) (t : JobKeyTuple)
    (id1 id2 : String) :
    ((createDownloadJob (createDownloadJob db t id1).2 t id2).1 =
        (createDownloadJob db t id1).1 ∧
      (createDownloadJob (createDownloadJob db t id1).2 t id2).2 =
        (createDownloadJob db t id1).2) ∧
    ((∀ j, j ∈ db → matchesTuple t j = true → isTerminal j.status = true) →
      (createDownloadJob db t id1).1 =
          ⟨id1, t.ownerId, t.batchId, t.targetId, "pending"⟩ ∧
        (createDownloadJob db t id1).2 =
          ⟨id1, t.ownerId, t.batchId, t.targetId, "pending"⟩ :: db ∧
        (∀ j, j ∈ db → j.id ≠ id1 → (createDownloadJob db t id1).1.id ≠ j.id)) := by
  constructor
  · have hfind := (createDownloadJob_result_nonterminal db t id1).2.2
    have key : ∀ (dbx : List DownloadJob) (j0 : DownloadJob),
        dbx.find? (fun j => matchesTuple t j && !(isTerminal j.status)) = some j0 →
        createDownloadJob dbx t id2 = (j0, dbx) := by
      intro dbx j0 hx
      unfold createDownloadJob
      rw [hx]
    have heq := key _ _ hfind
    exact ⟨by rw [heq], by rw [heq]⟩
  · intro hterm
    have hnone : db.find? (fun j => matchesTuple t j && !(isTerminal j.status)) = none := by
      rw [List.find?_eq_none]
      intro j hj
      by_cases hm : matchesTuple t j = true
      · have hx := hterm j hj hm
        simp [hm, hx]
      · simp [Bool.not_eq_true] at hm
        simp [hm]
    refine ⟨?_, ?_, ?_⟩
    · unfold createDownloadJob
      rw [hnone]
    · unfold createDownloadJob
      rw [hnone]
    · intro j hj hne
      unfold createDownloadJob
      rw [hnone]
      simp only []
      exact fun hcontra => hne (hcontra.symm)

/-- Witness for the deduplication contract: a second call for the same tuple
returns the job the first call inserted. -/
theorem createDownloadJob_dedup_spec_witness :
    (createDownloadJob
        (createDownloadJob [] ⟨"u1", "b1", "mbid1"⟩ "job1").2
        ⟨"u1", "b1", "mbid1"⟩ "job2").1 =
      (createDownloadJob [] ⟨"u1", "b1", "mbid1"⟩ "job1").1 :=
  (createDownloadJob_dedup_spec [] ⟨"u1", "b1", "mbid1"⟩ "job1" "job2").1.1

/-! The Lidarr webhook handler (event sourcing), translated from the route
handler: the observable behaviour is the ordered trace of calls it makes.
Store outcomes (storeEvent, the per-event-type handler dispatched by the
switch, markProcessed, markFailed) are supplied as oracles; a `some msg`
outcome for markProcessed/markFailed means that call threw `msg`. -/

/-- One observable action of the webhook request handling. -/
inductive WebAction where
  | storeEventCall (eventId : Nat)
  | respond (status : Nat)
  | markProcessedCall (eventId : Nat) (correlationId : Option String)
  | markFailedCall (eventId : Nat) (reason : String)
  | metricsObserve (status : String)
  | logCaught (msg : String)
deriving DecidableEq

/-- processWebhookEvent from the source: run the event-type dispatch; on
success mark the event processed with the correlation id; any error thrown
inside the try (by the dispatch or by markProcessed itself) is caught and
recorded via markFailed; the finally block observes metrics with status
success or failed.  Returns the trace of calls and the error, if any,
escaping the async function (only markFailed itself throwing escapes). -/
def processWebhookEvent (eventId : Nat)
    (handleOutcome : Except String (Option String))
    (markProcessedOutcome markFailedOutcome : Option String) :
    List WebAction × Option String :=
  match handleOutcome with
  | Except.ok cid =>
      match markProcessedOutcome with
      | none =>
          ([WebAction.markProcessedCall eventId cid,
            WebAction.metricsObserve "success"], none)
      | some e =>
          ([WebAction.markProcessedCall eventId cid,
            WebAction.markFailedCall eventId e,
            WebAction.metricsObserve "failed"], markFailedOutcome)
  | Except.error e =>
      ([WebAction.markFailedCall eventId e,
        WebAction.metricsObserve "failed"], markFailedOutcome)

/-- System settings consulted by the route guard. -/
structure LidarrSettings where
  lidarrEnabled : Bool
  lidarrUrl : Option String
  lidarrApiKey : Option String
  lidarrWebhookSecret : Option String
deriving DecidableEq

/-- The POST /webhooks/lidarr handler from the source: when Lidarr is
disabled respond 202; when a configured webhook secret does not match the
provided header respond 401; otherwise store the event — a storeEvent throw
is caught by the route's try/catch and answered 500 — then respond 200, and
only then run the async processing, whose escaping rejection is caught by
the .catch and only logged.  The handler's observable behaviour is a trace;
the model's total return type reflects that no error crosses the request
boundary. -/
def lidarrWebhookPost (settings : Option LidarrSettings)
    (providedSecret : Option String)
    (storeOutcome : Except String Nat)
    (handleOutcome : Except String (Option String))
    (markProcessedOutcome markFailedOutcome : Option String) : List WebAction :=
  let enabled := match settings with
    | some s => s.lidarrEnabled && s.lidarrUrl.isSome && s.lidarrApiKey.isSome
    | none => false
  if !enabled then [WebAction.respond 202]
  else
    let secretBad := match settings with
      | some s =>
          (match s.lidarrWebhookSecret with
            | some sec =>
                (match providedSecret with
                  | none => true
                  | some pr => pr != sec)
            | none => false)
      | none => false
    if secretBad then [WebAction.respond 401]
    else
      match storeOutcome with
      | Except.error _ => [WebAction.respond 500]
      | Except.ok eventId =>
          let proc := processWebhookEvent eventId handleOutcome
            markProcessedOutcome markFailedOutcome
          WebAction.storeEventCall eventId :: WebAction.respond 200 ::
            (proc.1 ++ (match proc.2 with
              | some m => [WebAction.logCaught m]
              | none => []))

/-- Whether an action is an HTTP response. -/
def WebAction.isRespond : WebAction → Bool
  | .respond _ => true
  | _ => false

theorem processWebhookEvent_no_respond (eventId : Nat)
    (handleOutcome : Except String (Option String))
    (markProcessedOutcome markFailedOutcome : Option String) :
    (processWebhookEvent eventId handleOutcome markProcessedOutcome
        markFailedOutcome).1.countP (fun a => a.isRespond) = 0 := by
  unfold processWebhookEvent
  cases handleOutcome with
  | ok cid =>
      cases markProcessedOutcome with
      | none => simp [List.countP, List.countP.go, WebAction.isRespond]
      | some e => simp [List.countP, List.countP.go, WebAction.isRespond]
  | error e => simp [List.countP, List.countP.go, WebAction.isRespond]

/-- C8: on the processed path (Lidarr enabled, secret accepted, storeEvent
durable) the handler's trace starts with the completed storeEvent call, then
the success response, and only then the asynchronous processing; every error
thrown during that processing — by the event dispatch or by markProcessed —
leads to a markFailedCall recording it against the event; and on every path
exactly one response is sent, so processing failures never raise past the
request boundary or alter the already-sent success response. -/
theorem lidarrWebhook_store_before_respond (settings : Option LidarrSettings)
    (providedSecret : Option String) (storeOutcome : Except String Nat)
    (handleOutcome : Except String (Option String))
    (markProcessedOutcome markFailedOutcome : Option String) :
    ((lidarrWebhookPost settings providedSecret storeOutcome handleOutcome
        markProcessedOutcome markFailedOutcome).countP (fun a => a.isRespond) = 1) ∧
    (∀ s eventId, settings = some s →
      (s.lidarrEnabled && s.lidarrUrl.isSome && s.lidarrApiKey.isSome) = true →
      (match s.lidarrWebhookSecret with
        | some sec =>
            (match providedSecret with
              | none => true
              | some pr => pr != sec)
        | none => false) = false →
      storeOutcome = Except.ok eventId →
      ((lidarrWebhookPost settings providedSecret storeOutcome handleOutcome
          markProcessedOutcome markFailedOutcome).take 2 =
        [WebAction.storeEventCall eventId, WebAction.respond 200] ∧
      (∀ e, handleOutcome = Except.error e →
        WebAction.markFailedCall eventId e ∈
          lidarrWebhookPost settings providedSecret storeOutcome handleOutcome
            markProcessedOutcome markFailedOutcome) ∧
      (∀ cid e, handleOutcome = Except.ok cid → markProcessedOutcome = some e →
        WebAction.markFailedCall eventId e ∈
          lidarrWebhookPost settings providedSecret storeOutcome handleOutcome
            markProcessedOutcome markFailedOutcome))) := by
  constructor
  · unfold lidarrWebhookPost
    cases settings with
    | none => simp [List.countP, List.countP.go, WebAction.isRespond]
    | some s =>
        by_cases hen : (s.lidarrEnabled && s.lidarrUrl.isSome && s.lidarrApiKey.isSome) = true
        · simp only [hen]
          by_cases hsec : (match s.lidarrWebhookSecret with
            | some sec =>
                (match providedSecret with
                  | none => true
                  | some pr => pr != sec)
            | none => false) = true
          · simp [hsec, List.countP, List.countP.go, WebAction.isRespond]
          · rw [Bool.not_eq_true] at hsec
            simp only [hsec]
            cases storeOutcome with
            | error m => simp [List.countP, List.countP.go, WebAction.isRespond]
            | ok eventId =>
                simp only [Bool.not_true, Bool.false_eq_true, if_false, if_neg]
                rw [List.countP_cons, List.countP_cons, List.countP_append]
                rw [processWebhookEvent_no_respond]
                cases hm : (processWebhookEvent eventId handleOutcome
                    markProcessedOutcome markFailedOutcome).2 with
                | none => simp [WebAction.isRespond, List.countP, List.countP.go]
                | some m => simp [WebAction.isRespond, List.countP, List.countP.go]
        · rw [Bool.not_eq_true] at hen
          simp [hen, List.countP, List.countP.go, WebAction.isRespond]
  · intro s eventId hs hen hsec hstore
    subst hs
    subst hstore
    have hred : lidarrWebhookPost (some s) providedSecret (Except.ok eventId)
        handleOutcome markProcessedOutcome markFailedOutcome =
        WebAction.storeEventCall eventId :: WebAction.respond 200 ::
          ((processWebhookEvent eventId handleOutcome markProcessedOutcome
              markFailedOutcome).1 ++
            (match (processWebhookEvent eventId handleOutcome markProcessedOutcome
                markFailedOutcome).2 with
              | some m => [WebAction.logCaught m]
              | none => [])) := by
      unfold lidarrWebhookPost
      simp only [hen, hsec]
      simp
    refine ⟨?_, ?_, ?_⟩
    · rw [hred]
      rfl
    · intro e he
      subst he
      rw [hred]
      simp [processWebhookEvent]
    · intro cid e hc hmp
      subst hc
      subst hmp
      rw [hred]
      simp [processWebhookEvent]

/-- Witness for the webhook ordering contract: enabled settings, no secret,
event 7 stored, dispatch failing with "boom" — the trace opens with the
store call then the 200 response. -/
theorem lidarrWebhook_store_before_respond_witness :
    (lidarrWebhookPost (some ⟨true, some "http", some "key", none⟩) none
        (Except.ok 7) (Except.error "boom") none none).take 2 =
      [WebAction.storeEventCall 7, WebAction.respond 200] :=
  ((lidarrWebhook_store_before_respond (some ⟨true, some "http", some "key", none⟩)
      none (Except.ok 7) (Except.error "boom") none none).2
    ⟨true, some "http", some "key", none⟩ 7 rfl (by decide) (by decide) rfl).1

end Lidify
